import Mathlib

/-!
Verification of the trailing-stop engine of `manager_closer.py`
(class `TrailingStopManager`).

Modelling conventions (shallow embedding):
* Python floats are idealised as exact rationals (`ℚ`); `round(x, 5)` is
  modelled as round-half-to-even at 5 fractional decimal digits.
* The positions dictionary (`positions_data["positions"]`) is an
  association list `Store` keyed by symbol, with the usual unique-key
  dictionary discipline; `del` is erasure, assignment is in-place update.
* Timestamps (`datetime.now()`) are abstracted as a `Nat` supplied by the
  environment; logging and printing are ignored.
* Network collaborators are abstracted as functions supplied in an `Env`:
  the product mapping, the price oracle result for this cycle (`0` is the
  failure sentinel of `_get_current_price`), and the success flag of the
  close order placed for a symbol.
-/

namespace AutoTrader

/-- Round-half-to-even of a rational to an integer, as Python's `round`
behaves on representable values (ties go to the even integer). -/
def rhalfEven (x : ℚ) : ℤ :=
  if x - ⌊x⌋ < 1/2 then ⌊x⌋
  else if (1:ℚ)/2 < x - ⌊x⌋ then ⌊x⌋ + 1
  else if ⌊x⌋ % 2 = 0 then ⌊x⌋ else ⌊x⌋ + 1

/-- `round(x, 5)`: round to 5 fractional decimal digits, ties to even. -/
def round5 (x : ℚ) : ℚ :=
  ((rhalfEven (x * 100000) : ℚ)) / 100000

/-- `x` is representable with 5 fractional decimal digits (an integer
multiple of `10⁻⁵`).  Every stop the engine ever stores has this shape,
being an output of `round5`. -/
def isRound5 (x : ℚ) : Prop := ∃ n : ℤ, x = (n : ℚ) / 100000

/-- `TrailingStopManager._calculate_stop_loss` (lines 280–290): the stop
candidate anchored at `current_price`, offset by `entry_price * pct/100`,
below for longs (`size > 0`), above otherwise, rounded to 5 digits. -/
def calculate_stop_loss (pct current_price entry_price size : ℚ) : ℚ :=
  let stop_diff := entry_price * (pct / 100)
  if size > 0 then round5 (current_price - stop_diff)
  else round5 (current_price + stop_diff)

/-- `TrailingStopManager._should_update_stop_loss` (lines 292–304): note
that, unlike `_calculate_stop_loss`, the candidate compared here is NOT
rounded. -/
def should_update_stop_loss (pct current_price current_stop_loss entry_price size : ℚ) : Bool :=
  let stop_diff := entry_price * (pct / 100)
  if size > 0 then decide (current_price - stop_diff > current_stop_loss)
  else decide (current_price + stop_diff < current_stop_loss)

theorem rhalfEven_ge_floor (x : ℚ) : ⌊x⌋ ≤ rhalfEven x := by
  unfold rhalfEven
  split_ifs <;> omega

theorem rhalfEven_le_floor_add_one (x : ℚ) : rhalfEven x ≤ ⌊x⌋ + 1 := by
  unfold rhalfEven
  split_ifs <;> omega

theorem round5_isRound5 (x : ℚ) : isRound5 (round5 x) :=
  ⟨rhalfEven (x * 100000), rfl⟩

/-- If `s` is a 5-digit value and `s < a`, then rounding `a` to 5 digits
cannot fall below `s`. -/
theorem isRound5_le_round5 {s a : ℚ} (hs : isRound5 s) (h : s < a) :
    s ≤ round5 a := by
  obtain ⟨n, rfl⟩ := hs
  have h1 : (n : ℚ) < a * 100000 := by
    have := mul_lt_mul_of_pos_right h (by norm_num : (0:ℚ) < 100000)
    calc (n : ℚ) = (n : ℚ) / 100000 * 100000 := by ring
    _ < a * 100000 := this
  have h2 : n ≤ ⌊a * 100000⌋ := Int.le_floor.mpr h1.le
  have h3 : n ≤ rhalfEven (a * 100000) := le_trans h2 (rhalfEven_ge_floor _)
  have hc : (n : ℚ) ≤ (rhalfEven (a * 100000) : ℚ) := by exact_mod_cast h3
  unfold round5
  exact (div_le_div_iff_of_pos_right (by norm_num : (0:ℚ) < 100000)).mpr hc

/-- If `s` is a 5-digit value and `a < s`, then rounding `a` to 5 digits
cannot rise above `s`. -/
theorem round5_le_isRound5 {s a : ℚ} (hs : isRound5 s) (h : a < s) :
    round5 a ≤ s := by
  obtain ⟨n, rfl⟩ := hs
  have h1 : a * 100000 < (n : ℚ) := by
    have := mul_lt_mul_of_pos_right h (by norm_num : (0:ℚ) < 100000)
    calc a * 100000 < (n : ℚ) / 100000 * 100000 := this
    _ = (n : ℚ) := by ring
  have h2 : ⌊a * 100000⌋ < n := Int.floor_lt.mpr h1
  have h3 : rhalfEven (a * 100000) ≤ n :=
    le_trans (rhalfEven_le_floor_add_one _) (by omega)
  have hc : (rhalfEven (a * 100000) : ℚ) ≤ (n : ℚ) := by exact_mod_cast h3
  unfold round5
  exact (div_le_div_iff_of_pos_right (by norm_num : (0:ℚ) < 100000)).mpr hc

/-! ## Data model: tracked positions and the store -/

/-- One entry of `positions_data["positions"]` (dict literal built at
lines 371–378 of `manager_closer.py`). -/
structure TrackedPosition where
  entry_price : ℚ
  current_price : ℚ
  stop_loss : ℚ
  size : ℚ
  stop_loss_updates : ℕ
  last_update : ℕ
deriving DecidableEq, Repr

/-- The positions dictionary, keyed by symbol. -/
abbrev Store := List (String × TrackedPosition)

/-- Dictionary lookup (`stored_positions[symbol]` / `symbol in stored_positions`). -/
def findEntry : Store → String → Option TrackedPosition
  | [], _ => none
  | (k, v) :: rest, sym => if k = sym then some v else findEntry rest sym

/-- Dictionary assignment `stored_positions[symbol] = data`: replace in
place if present, append otherwise. -/
def setEntry : Store → String → TrackedPosition → Store
  | [], sym, v => [(sym, v)]
  | (k, v') :: rest, sym, v =>
    if k = sym then (sym, v) :: rest else (k, v') :: setEntry rest sym v

/-- Dictionary deletion `del stored_positions[symbol]`. -/
def eraseEntry (st : Store) (sym : String) : Store :=
  st.filter (fun kv => kv.1 ≠ sym)

/-- One live position as returned by the open-positions fetcher
(`position['product_symbol']`, `position['position']['entry_price']`,
`position['position']['size']`). -/
structure LivePosition where
  product_symbol : String
  entry_price : ℚ
  size : ℚ
deriving DecidableEq, Repr

inductive Side where
  | buy
  | sell
deriving DecidableEq, Repr

/-- A close order passed to `DeltaExchange.place_order`, tagged with the
symbol it was issued for. -/
structure Order where
  symbol : String
  product_id : ℕ
  size : ℚ
  side : Side
deriving DecidableEq, Repr

/-- The external collaborators consulted during one engine cycle:
trailing-stop percentage, the symbol→product-id mapping, this cycle's
price-oracle result per symbol (`0` = lookup failure sentinel), whether
the close order placed for a symbol reports success, and the wall-clock
timestamp. -/
structure Env where
  pct : ℚ
  mapping : String → Option ℕ
  price : String → ℚ
  orderSuccess : String → Bool
  now : ℕ

/-! ## The reconciliation cycle (`manage_stop_losses`, lines 327–518) -/

/-- The loop body for one element of `current_positions`
(lines 348–481).  Skips on unmapped product id (Python truthiness: both
`None` and `0` are rejected by `if not product_id`) and on the `0` price
sentinel; inserts new symbols with the initial stop; otherwise refreshes
`current_price`, then either closes on breach (deleting the entry only on
order success), tightens the stop when `_should_update_stop_loss` says
so, or leaves the rest of the entry as is. -/
def stepPosition (env : Env) (acc : Store × List Order) (p : LivePosition) :
    Store × List Order :=
  let (st, orders) := acc
  match env.mapping p.product_symbol with
  | none => (st, orders)
  | some product_id =>
    if product_id = 0 then (st, orders)
    else
      let current_price := env.price p.product_symbol
      if current_price = 0 then (st, orders)
      else
        match findEntry st p.product_symbol with
        | none =>
          let initial_stop_loss :=
            calculate_stop_loss env.pct p.entry_price p.entry_price p.size
          (setEntry st p.product_symbol
            { entry_price := p.entry_price
              current_price := current_price
              stop_loss := initial_stop_loss
              size := p.size
              stop_loss_updates := 0
              last_update := env.now }, orders)
        | some stored_pos =>
          let sp := { stored_pos with current_price := current_price }
          if p.size > 0 then
            if current_price ≤ sp.stop_loss then
              let ord : Order :=
                ⟨p.product_symbol, product_id, |p.size|, Side.sell⟩
              if env.orderSuccess p.product_symbol then
                (eraseEntry st p.product_symbol, orders ++ [ord])
              else
                (setEntry st p.product_symbol sp, orders ++ [ord])
            else if should_update_stop_loss env.pct current_price sp.stop_loss
                stored_pos.entry_price p.size then
              let new_stop_loss :=
                calculate_stop_loss env.pct current_price stored_pos.entry_price p.size
              (setEntry st p.product_symbol
                { sp with
                  stop_loss := new_stop_loss
                  stop_loss_updates := stored_pos.stop_loss_updates + 1
                  last_update := env.now }, orders)
            else (setEntry st p.product_symbol sp, orders)
          else
            if current_price ≥ sp.stop_loss then
              let ord : Order :=
                ⟨p.product_symbol, product_id, |p.size|, Side.buy⟩
              if env.orderSuccess p.product_symbol then
                (eraseEntry st p.product_symbol, orders ++ [ord])
              else
                (setEntry st p.product_symbol sp, orders ++ [ord])
            else if should_update_stop_loss env.pct current_price sp.stop_loss
                stored_pos.entry_price p.size then
              let new_stop_loss :=
                calculate_stop_loss env.pct current_price stored_pos.entry_price p.size
              (setEntry st p.product_symbol
                { sp with
                  stop_loss := new_stop_loss
                  stop_loss_updates := stored_pos.stop_loss_updates + 1
                  last_update := env.now }, orders)
            else (setEntry st p.product_symbol sp, orders)

/-- The per-position loop over `current_positions`. -/
def processPositions (env : Env) (st : Store) (live : List LivePosition) :
    Store × List Order :=
  live.foldl (stepPosition env) (st, [])

/-- The removal phase (lines 483–497): every stored symbol not among
`current_symbols` is deleted, no order placed. -/
def removeClosed (live : List LivePosition) (st : Store) : Store :=
  st.filter (fun kv => kv.1 ∈ live.map LivePosition.product_symbol)

/-- One full in-memory reconciliation cycle of `manage_stop_losses`,
between the load at line 340 and the save at line 501: returns the store
written back and the list of close orders placed. -/
def manageCycle (env : Env) (st : Store) (live : List LivePosition) :
    Store × List Order :=
  let (st1, orders) := processPositions env st live
  (removeClosed live st1, orders)

/-! ## Store lemmas -/

theorem findEntry_setEntry_self (st : Store) (sym : String) (v : TrackedPosition) :
    findEntry (setEntry st sym v) sym = some v := by
  induction st with
  | nil => simp [setEntry, findEntry]
  | cons kv rest ih =>
    obtain ⟨k, v'⟩ := kv
    by_cases h : k = sym <;> simp [setEntry, findEntry, h, ih]

theorem findEntry_setEntry_ne (st : Store) {sym sym' : String}
    (h : sym ≠ sym') (v : TrackedPosition) :
    findEntry (setEntry st sym v) sym' = findEntry st sym' := by
  induction st with
  | nil => simp [setEntry, findEntry, h]
  | cons kv rest ih =>
    obtain ⟨k, v'⟩ := kv
    by_cases hk : k = sym
    · subst hk
      simp [setEntry, findEntry, h]
    · simp [setEntry, findEntry, hk, ih]

theorem findEntry_eraseEntry_self (st : Store) (sym : String) :
    findEntry (eraseEntry st sym) sym = none := by
  induction st with
  | nil => simp [eraseEntry, findEntry]
  | cons kv rest ih =>
    obtain ⟨k, v⟩ := kv
    by_cases h : k = sym
    · simpa [eraseEntry, List.filter, h] using ih
    · simpa [eraseEntry, List.filter, h, findEntry] using ih

theorem findEntry_eraseEntry_ne (st : Store) {sym sym' : String} (h : sym ≠ sym') :
    findEntry (eraseEntry st sym) sym' = findEntry st sym' := by
  induction st with
  | nil => simp [eraseEntry, findEntry]
  | cons kv rest ih =>
    obtain ⟨k, v⟩ := kv
    by_cases hk : k = sym
    · subst hk
      simpa [eraseEntry, List.filter, findEntry, h, Ne.symm h] using ih
    · by_cases hk' : k = sym'
      · subst hk'
        simp [eraseEntry, List.filter, findEntry, Ne.symm h, hk]
      · simpa [eraseEntry, List.filter, findEntry, hk, hk'] using ih

theorem findEntry_removeClosed_mem (live : List LivePosition) (st : Store)
    {sym : String} (h : sym ∈ live.map LivePosition.product_symbol) :
    findEntry (removeClosed live st) sym = findEntry st sym := by
  induction st with
  | nil => simp [removeClosed, findEntry]
  | cons kv rest ih =>
    obtain ⟨k, v⟩ := kv
    by_cases hk : k = sym
    · subst hk
      simp [removeClosed, List.filter, findEntry, h]
    · by_cases hm : k ∈ live.map LivePosition.product_symbol <;>
        simpa [removeClosed, List.filter, findEntry, hk, hm] using ih

theorem findEntry_removeClosed_not_mem (live : List LivePosition) (st : Store)
    {sym : String} (h : sym ∉ live.map LivePosition.product_symbol) :
    findEntry (removeClosed live st) sym = none := by
  induction st with
  | nil => simp [removeClosed, findEntry]
  | cons kv rest ih =>
    obtain ⟨k, v⟩ := kv
    by_cases hm : k ∈ live.map LivePosition.product_symbol
    · have hk : k ≠ sym := fun he => h (he ▸ hm)
      simpa [removeClosed, List.filter, findEntry, hm, hk] using ih
    · simpa [removeClosed, List.filter, hm] using ih

/-! ## Frame lemmas for one loop iteration -/

/-- A price-oracle failure (`current_price == 0`) makes the loop body a
no-op for that position. -/
theorem stepPosition_price_zero (env : Env) (acc : Store × List Order)
    (p : LivePosition) (h : env.price p.product_symbol = 0) :
    stepPosition env acc p = acc := by
  obtain ⟨st, orders⟩ := acc
  unfold stepPosition
  cases hm : env.mapping p.product_symbol with
  | none => rfl
  | some pid =>
    by_cases hp : pid = 0 <;> simp [hp, h]

/-- The loop body never touches the stored entry of a different symbol. -/
theorem stepPosition_findEntry_ne (env : Env) (st : Store) (orders : List Order)
    (p : LivePosition) {sym : String} (h : p.product_symbol ≠ sym) :
    findEntry (stepPosition env (st, orders) p).1 sym = findEntry st sym := by
  unfold stepPosition
  cases hm : env.mapping p.product_symbol with
  | none => rfl
  | some pid =>
    by_cases hp : pid = 0
    · simp [hp]
    · simp only [hp, if_false]
      by_cases hz : env.price p.product_symbol = 0
      · simp [hz]
      · simp only [hz, if_false]
        cases hf : findEntry st p.product_symbol with
        | none => simp [findEntry_setEntry_ne st h]
        | some sp =>
          simp only
          split_ifs <;>
            simp [findEntry_setEntry_ne st h, findEntry_eraseEntry_ne st h]

/-- Orders appended by one loop iteration carry the symbol of that
iteration's position, and only appear when its price lookup succeeded and
the symbol was already stored. -/
theorem stepPosition_orders (env : Env) (st : Store) (orders : List Order)
    (p : LivePosition) {o : Order} (ho : o ∈ (stepPosition env (st, orders) p).2) :
    o ∈ orders ∨
      (o.symbol = p.product_symbol ∧ env.price p.product_symbol ≠ 0 ∧
        (findEntry st p.product_symbol).isSome) := by
  revert ho
  unfold stepPosition
  cases hm : env.mapping p.product_symbol with
  | none => exact fun ho => Or.inl ho
  | some pid =>
    by_cases hp : pid = 0
    · simp only [hp, if_true]
      exact fun ho => Or.inl ho
    · simp only [hp, if_false]
      by_cases hz : env.price p.product_symbol = 0
      · simp only [hz, if_true]
        exact fun ho => Or.inl ho
      · simp only [hz, if_false]
        cases hf : findEntry st p.product_symbol with
        | none =>
          simp only
          exact fun ho => Or.inl ho
        | some sp =>
          simp only
          split_ifs <;> intro ho <;>
            first
              | exact Or.inl ho
              | (rcases List.mem_append.mp ho with h' | h'
                 · exact Or.inl h'
                 · refine Or.inr ⟨?_, hz, by simp [hf]⟩
                   simp only [List.mem_singleton] at h'
                   subst h'
                   rfl)

/-- The entry inserted for a live position not yet in the store
(lines 368–379). -/
def freshEntry (env : Env) (p : LivePosition) : TrackedPosition :=
  { entry_price := p.entry_price
    current_price := env.price p.product_symbol
    stop_loss := calculate_stop_loss env.pct p.entry_price p.entry_price p.size
    size := p.size
    stop_loss_updates := 0
    last_update := env.now }

/-- When the symbol is absent from the store, the loop body either skips
(unmapped product id or price sentinel) or inserts the fresh entry,
placing no order either way. -/
theorem stepPosition_absent (env : Env) (st : Store) (orders : List Order)
    (p : LivePosition) (h : findEntry st p.product_symbol = none) :
    stepPosition env (st, orders) p = (st, orders) ∨
      (stepPosition env (st, orders) p =
        (setEntry st p.product_symbol (freshEntry env p), orders) ∧
        env.price p.product_symbol ≠ 0) := by
  unfold stepPosition
  cases hm : env.mapping p.product_symbol with
  | none => exact Or.inl rfl
  | some pid =>
    by_cases hp : pid = 0
    · simp [hp]
    · simp only [hp, if_false]
      by_cases hz : env.price p.product_symbol = 0
      · simp [hz]
      · simp only [hz, if_false, h]
        exact Or.inr ⟨rfl, hz⟩

/-- When the symbol is absent, the product id resolves, and the price
lookup succeeds, the loop body inserts exactly the fresh entry. -/
theorem stepPosition_absent_insert (env : Env) (st : Store) (orders : List Order)
    (p : LivePosition) (h : findEntry st p.product_symbol = none)
    (hm : ∃ pid, env.mapping p.product_symbol = some pid ∧ pid ≠ 0)
    (hz : env.price p.product_symbol ≠ 0) :
    stepPosition env (st, orders) p =
      (setEntry st p.product_symbol (freshEntry env p), orders) := by
  obtain ⟨pid, hmap, hpid⟩ := hm
  unfold stepPosition
  simp [hmap, hpid, hz, h, freshEntry]

/-- Characterisation of one loop iteration on a symbol that is already
stored: the store is either untouched (skip), erased at the symbol
(close-order success), or rewritten at the symbol with an entry that
keeps `entry_price` and `size` and whose stop is either unchanged or the
accepted `_calculate_stop_loss` candidate. -/
theorem stepPosition_present (env : Env) (st : Store) (orders : List Order)
    (p : LivePosition) (q : TrackedPosition)
    (hq : findEntry st p.product_symbol = some q) :
    (stepPosition env (st, orders) p).1 = st ∨
    (stepPosition env (st, orders) p).1 = eraseEntry st p.product_symbol ∨
    (∃ q', (stepPosition env (st, orders) p).1 = setEntry st p.product_symbol q' ∧
      q'.entry_price = q.entry_price ∧ q'.size = q.size ∧
      (q'.stop_loss = q.stop_loss ∨
        (should_update_stop_loss env.pct (env.price p.product_symbol) q.stop_loss
            q.entry_price p.size = true ∧
         q'.stop_loss =
           calculate_stop_loss env.pct (env.price p.product_symbol)
             q.entry_price p.size))) := by
  unfold stepPosition
  cases hm : env.mapping p.product_symbol with
  | none => exact Or.inl rfl
  | some pid =>
    by_cases hp : pid = 0
    · simp [hp]
    · simp only [hp, if_false]
      by_cases hz : env.price p.product_symbol = 0
      · simp [hz]
      · simp only [hz, if_false, hq]
        by_cases hsz : p.size > 0
        · simp only [hsz, if_true]
          by_cases hbr : env.price p.product_symbol ≤
              ({ q with current_price := env.price p.product_symbol} :
                TrackedPosition).stop_loss
          · simp only [hbr, if_true]
            by_cases hos : env.orderSuccess p.product_symbol
            · simp [hos]
            · simp only [hos]
              exact Or.inr (Or.inr
                ⟨{ q with current_price := env.price p.product_symbol },
                  rfl, rfl, rfl, Or.inl rfl⟩)
          · simp only [hbr, if_false]
            by_cases hup : should_update_stop_loss env.pct
                (env.price p.product_symbol)
                ({ q with current_price := env.price p.product_symbol} :
                  TrackedPosition).stop_loss q.entry_price p.size = true
            · simp only [hup, if_true]
              exact Or.inr (Or.inr
                ⟨{ q with
                    current_price := env.price p.product_symbol
                    stop_loss := calculate_stop_loss env.pct
                      (env.price p.product_symbol) q.entry_price p.size
                    stop_loss_updates := q.stop_loss_updates + 1
                    last_update := env.now },
                  rfl, rfl, rfl, Or.inr ⟨by simp, rfl⟩⟩)
            · simp only [hup, if_false]
              exact Or.inr (Or.inr
                ⟨{ q with current_price := env.price p.product_symbol },
                  rfl, rfl, rfl, Or.inl rfl⟩)
        · simp only [hsz, if_false]
          by_cases hbr : env.price p.product_symbol ≥
              ({ q with current_price := env.price p.product_symbol} :
                TrackedPosition).stop_loss
          · simp only [hbr, if_true]
            by_cases hos : env.orderSuccess p.product_symbol
            · simp [hos]
            · simp only [hos]
              exact Or.inr (Or.inr
                ⟨{ q with current_price := env.price p.product_symbol },
                  rfl, rfl, rfl, Or.inl rfl⟩)
          · simp only [hbr, if_false]
            by_cases hup : should_update_stop_loss env.pct
                (env.price p.product_symbol)
                ({ q with current_price := env.price p.product_symbol} :
                  TrackedPosition).stop_loss q.entry_price p.size = true
            · simp only [hup, if_true]
              exact Or.inr (Or.inr
                ⟨{ q with
                    current_price := env.price p.product_symbol
                    stop_loss := calculate_stop_loss env.pct
                      (env.price p.product_symbol) q.entry_price p.size
                    stop_loss_updates := q.stop_loss_updates + 1
                    last_update := env.now },
                  rfl, rfl, rfl, Or.inr ⟨by simp, rfl⟩⟩)
            · simp only [hup, if_false]
              exact Or.inr (Or.inr
                ⟨{ q with current_price := env.price p.product_symbol },
                  rfl, rfl, rfl, Or.inl rfl⟩)

theorem should_update_stop_loss_long {pct cp stop ep sz : ℚ} (hsz : 0 < sz)
    (h : should_update_stop_loss pct cp stop ep sz = true) :
    stop < cp - ep * (pct / 100) := by
  simp only [should_update_stop_loss] at h
  rw [if_pos hsz, decide_eq_true_eq] at h
  exact h

theorem should_update_stop_loss_short {pct cp stop ep sz : ℚ} (hsz : ¬ 0 < sz)
    (h : should_update_stop_loss pct cp stop ep sz = true) :
    cp + ep * (pct / 100) < stop := by
  simp only [should_update_stop_loss] at h
  rw [if_neg hsz, decide_eq_true_eq] at h
  exact h

theorem calculate_stop_loss_long {pct cp ep sz : ℚ} (hsz : 0 < sz) :
    calculate_stop_loss pct cp ep sz = round5 (cp - ep * (pct / 100)) := by
  simp only [calculate_stop_loss]
  rw [if_pos hsz]

theorem calculate_stop_loss_short {pct cp ep sz : ℚ} (hsz : ¬ 0 < sz) :
    calculate_stop_loss pct cp ep sz = round5 (cp + ep * (pct / 100)) := by
  simp only [calculate_stop_loss]
  rw [if_neg hsz]

theorem calculate_stop_loss_isRound5 (pct cp ep sz : ℚ) :
    isRound5 (calculate_stop_loss pct cp ep sz) := by
  simp only [calculate_stop_loss]
  split_ifs <;> exact round5_isRound5 _

/-- A breached stop whose close order reports non-success: the entry is
written back with only `current_price` refreshed, and the close order
appears in the order list. -/
theorem stepPosition_breach_fail (env : Env) (st : Store) (orders : List Order)
    (p : LivePosition) (q : TrackedPosition) (pid : ℕ)
    (hq : findEntry st p.product_symbol = some q)
    (hmap : env.mapping p.product_symbol = some pid) (hpid : pid ≠ 0)
    (hz : env.price p.product_symbol ≠ 0)
    (hbr : (0 < p.size ∧ env.price p.product_symbol ≤ q.stop_loss) ∨
           (¬ 0 < p.size ∧ q.stop_loss ≤ env.price p.product_symbol))
    (hfail : env.orderSuccess p.product_symbol = false) :
    stepPosition env (st, orders) p =
      (setEntry st p.product_symbol
        { q with current_price := env.price p.product_symbol },
       orders ++ [⟨p.product_symbol, pid, |p.size|,
         if 0 < p.size then Side.sell else Side.buy⟩]) := by
  unfold stepPosition
  rcases hbr with ⟨hsz, hle⟩ | ⟨hsz, hge⟩
  · simp [hmap, hpid, hz, hq, hsz, hle, hfail]
  · simp only [hmap, hpid, if_false, hz, hq]
    rw [if_neg hsz, if_pos (by exact hge), if_neg (by simp [hfail])]
    simp [hsz]

/-! ## Fold-level lemmas over the positions loop -/

/-- Frame: positions with other symbols never touch `sym`'s entry nor
place an order for it. -/
theorem processPositions_frame (env : Env) {sym : String} :
    ∀ (live : List LivePosition) (st : Store) (orders : List Order),
    (∀ lp ∈ live, lp.product_symbol ≠ sym) →
    findEntry (live.foldl (stepPosition env) (st, orders)).1 sym = findEntry st sym ∧
    (∀ o ∈ (live.foldl (stepPosition env) (st, orders)).2, o ∈ orders ∨ o.symbol ≠ sym) := by
  intro live
  induction live with
  | nil => exact fun st orders _ => ⟨rfl, fun o ho => Or.inl ho⟩
  | cons p ls ih =>
    intro st orders h
    have hp : p.product_symbol ≠ sym := h p (List.mem_cons_self p ls)
    rcases hstep : stepPosition env (st, orders) p with ⟨st', orders'⟩
    have hfold : (p :: ls).foldl (stepPosition env) (st, orders) =
        ls.foldl (stepPosition env) (st', orders') := by
      rw [List.foldl_cons, hstep]
    rw [hfold]
    have hih := ih st' orders' (fun lp hl => h lp (List.mem_cons_of_mem _ hl))
    refine ⟨?_, ?_⟩
    · rw [hih.1]
      have hne := stepPosition_findEntry_ne env st orders p hp
      rw [hstep] at hne
      exact hne
    · intro o ho
      rcases hih.2 o ho with h1 | h1
      · have h2 := stepPosition_orders env st orders p
          (o := o) (by rw [hstep]; exact h1)
        rcases h2 with h2 | h2
        · exact Or.inl h2
        · exact Or.inr (by rw [h2.1]; exact hp)
      · exact Or.inr h1

/-- A symbol whose price lookup returned the `0` sentinel is skipped by
every iteration that concerns it: its entry is never touched and no order
is placed for it. -/
theorem processPositions_price_zero (env : Env) {sym : String}
    (hz : env.price sym = 0) :
    ∀ (live : List LivePosition) (st : Store) (orders : List Order),
    findEntry (live.foldl (stepPosition env) (st, orders)).1 sym = findEntry st sym ∧
    (∀ o ∈ (live.foldl (stepPosition env) (st, orders)).2, o ∈ orders ∨ o.symbol ≠ sym) := by
  intro live
  induction live with
  | nil => exact fun st orders => ⟨rfl, fun o ho => Or.inl ho⟩
  | cons p ls ih =>
    intro st orders
    by_cases hp : p.product_symbol = sym
    · have hskip : stepPosition env (st, orders) p = (st, orders) :=
        stepPosition_price_zero env (st, orders) p (by rw [hp]; exact hz)
      rw [List.foldl_cons, hskip]
      exact ih st orders
    · rcases hstep : stepPosition env (st, orders) p with ⟨st', orders'⟩
      have hfold : (p :: ls).foldl (stepPosition env) (st, orders) =
          ls.foldl (stepPosition env) (st', orders') := by
        rw [List.foldl_cons, hstep]
      rw [hfold]
      have hih := ih st' orders'
      refine ⟨?_, ?_⟩
      · rw [hih.1]
        have hne := stepPosition_findEntry_ne env st orders p hp
        rw [hstep] at hne
        exact hne
      · intro o ho
        rcases hih.2 o ho with h1 | h1
        · have h2 := stepPosition_orders env st orders p
            (o := o) (by rw [hstep]; exact h1)
          rcases h2 with h2 | h2
          · exact Or.inl h2
          · exact Or.inr (by rw [h2.1]; exact hp)
        · exact Or.inr h1

/-- Ratchet across the whole loop: a stored entry with a 5-digit stop,
whose live direction agrees with the stored one, either disappears or
keeps its size with a stop that moved only in the risk-reducing
direction. -/
theorem processPositions_ratchet (env : Env) {sym : String} :
    ∀ (live : List LivePosition) (st : Store) (orders : List Order)
      (q : TrackedPosition),
    (live.map LivePosition.product_symbol).Nodup →
    (∀ lp ∈ live, lp.product_symbol = sym → (0 < lp.size ↔ 0 < q.size)) →
    findEntry st sym = some q → isRound5 q.stop_loss →
    (findEntry (live.foldl (stepPosition env) (st, orders)).1 sym = none ∨
      ∃ q', findEntry (live.foldl (stepPosition env) (st, orders)).1 sym = some q' ∧
        q'.size = q.size ∧ isRound5 q'.stop_loss ∧
        (0 < q.size → q.stop_loss ≤ q'.stop_loss) ∧
        (q.size < 0 → q'.stop_loss ≤ q.stop_loss)) := by
  intro live
  induction live with
  | nil =>
    intro st orders q _ _ hfind hr
    exact Or.inr ⟨q, hfind, rfl, hr, fun _ => le_refl _, fun _ => le_refl _⟩
  | cons p ls ih =>
    intro st orders q hnd hsign hfind hr
    rw [List.map_cons, List.nodup_cons] at hnd
    obtain ⟨hnotin, hnd'⟩ := hnd
    rcases hstep : stepPosition env (st, orders) p with ⟨st', orders'⟩
    have hfold : (p :: ls).foldl (stepPosition env) (st, orders) =
        ls.foldl (stepPosition env) (st', orders') := by
      rw [List.foldl_cons, hstep]
    rw [hfold]
    by_cases hp : p.product_symbol = sym
    · have hls : ∀ lp ∈ ls, lp.product_symbol ≠ sym := by
        intro lp hl he
        exact hnotin (by rw [hp, ← he]; exact List.mem_map_of_mem _ hl)
      have hframe := (processPositions_frame env ls st' orders' hls).1
      have hchar := stepPosition_present env st orders p q (by rw [hp]; exact hfind)
      rw [hstep] at hchar
      rcases hchar with hc | hc | ⟨q', hset, hentry, hsize, hstop⟩
      · have hst : st' = st := hc
        rw [hframe, hst, hfind]
        exact Or.inr ⟨q, rfl, rfl, hr, fun _ => le_refl _, fun _ => le_refl _⟩
      · have hst : st' = eraseEntry st p.product_symbol := hc
        rw [hframe, hst, hp, findEntry_eraseEntry_self]
        exact Or.inl rfl
      · have hst : st' = setEntry st p.product_symbol q' := hset
        rw [hframe, hst, hp, findEntry_setEntry_self]
        refine Or.inr ⟨q', rfl, hsize, ?_, ?_, ?_⟩
        · rcases hstop with h1 | ⟨_, h2⟩
          · rw [h1]; exact hr
          · rw [h2]; exact calculate_stop_loss_isRound5 _ _ _ _
        · intro hq
          rcases hstop with h1 | ⟨hup, h2⟩
          · rw [h1]
          · have hpsz : 0 < p.size :=
              (hsign p (List.mem_cons_self p ls) hp).mpr hq
            have hlt := should_update_stop_loss_long hpsz hup
            rw [h2, calculate_stop_loss_long hpsz]
            exact isRound5_le_round5 hr hlt
        · intro hq
          rcases hstop with h1 | ⟨hup, h2⟩
          · rw [h1]
          · have hpsz : ¬ 0 < p.size := by
              intro hc2
              exact absurd ((hsign p (List.mem_cons_self p ls) hp).mp hc2)
                (not_lt_of_lt hq)
            have hlt := should_update_stop_loss_short hpsz hup
            rw [h2, calculate_stop_loss_short hpsz]
            exact round5_le_isRound5 hr hlt
    · have hfind2 : findEntry st' sym = some q := by
        have hne := stepPosition_findEntry_ne env st orders p hp
        rw [hstep] at hne
        rw [hne]
        exact hfind
      exact ih st' orders' q hnd'
        (fun lp hl => hsign lp (List.mem_cons_of_mem _ hl)) hfind2 hr

/-- Insertion across the whole loop: a live position whose symbol is not
yet stored, whose product id resolves, and whose price lookup succeeded,
ends the loop stored as the fresh entry, with no order placed for its
symbol. -/
theorem processPositions_insert (env : Env) {sym : String} (lp : LivePosition) :
    ∀ (live : List LivePosition) (st : Store) (orders : List Order),
    (live.map LivePosition.product_symbol).Nodup →
    lp ∈ live → lp.product_symbol = sym →
    (∃ pid, env.mapping sym = some pid ∧ pid ≠ 0) →
    env.price sym ≠ 0 →
    findEntry st sym = none →
    findEntry (live.foldl (stepPosition env) (st, orders)).1 sym =
      some (freshEntry env lp) ∧
    (∀ o ∈ (live.foldl (stepPosition env) (st, orders)).2, o ∈ orders ∨ o.symbol ≠ sym) := by
  intro live
  induction live with
  | nil => intro st orders _ hmem; exact absurd hmem (List.not_mem_nil lp)
  | cons p ls ih =>
    intro st orders hnd hmem hsym hmap hz habs
    rw [List.map_cons, List.nodup_cons] at hnd
    obtain ⟨hnotin, hnd2⟩ := hnd
    by_cases hp : p.product_symbol = sym
    · have hlp : lp = p := by
        rcases List.mem_cons.mp hmem with h | h
        · exact h
        · exact absurd (by rw [hp, ← hsym]; exact List.mem_map_of_mem _ h) hnotin
      subst hlp
      have hls : ∀ x ∈ ls, x.product_symbol ≠ sym := by
        intro x hl he
        exact hnotin (by rw [hp, ← he]; exact List.mem_map_of_mem _ hl)
      have hstep := stepPosition_absent_insert env st orders lp
        (by rw [hsym]; exact habs)
        (by rw [hsym]; exact hmap) (by rw [hsym]; exact hz)
      have hfold : (lp :: ls).foldl (stepPosition env) (st, orders) =
          ls.foldl (stepPosition env)
            (setEntry st lp.product_symbol (freshEntry env lp), orders) := by
        rw [List.foldl_cons, hstep]
      rw [hfold]
      have hframe := processPositions_frame env ls
        (setEntry st lp.product_symbol (freshEntry env lp)) orders hls
      refine ⟨?_, hframe.2⟩
      rw [hframe.1, ← hsym, findEntry_setEntry_self]
    · have hmem2 : lp ∈ ls := by
        rcases List.mem_cons.mp hmem with h | h
        · exact absurd (h ▸ hsym) hp
        · exact h
      rcases hstep : stepPosition env (st, orders) p with ⟨st2, orders2⟩
      have hfold : (p :: ls).foldl (stepPosition env) (st, orders) =
          ls.foldl (stepPosition env) (st2, orders2) := by
        rw [List.foldl_cons, hstep]
      rw [hfold]
      have habs2 : findEntry st2 sym = none := by
        have hne := stepPosition_findEntry_ne env st orders p hp
        rw [hstep] at hne
        rw [hne]
        exact habs
      have hih := ih st2 orders2 hnd2 hmem2 hsym hmap hz habs2
      refine ⟨hih.1, ?_⟩
      intro o ho
      rcases hih.2 o ho with h1 | h1
      · have h2 := stepPosition_orders env st orders p
          (o := o) (by rw [hstep]; exact h1)
        rcases h2 with h2 | h2
        · exact Or.inl h2
        · exact Or.inr (by rw [h2.1]; exact hp)
      · exact Or.inr h1

/-- Breach with failed close order, across the whole loop: the entry
survives with only `current_price` refreshed. -/
theorem processPositions_breach_fail (env : Env) {sym : String}
    (lp : LivePosition) (q : TrackedPosition) :
    ∀ (live : List LivePosition) (st : Store) (orders : List Order),
    (live.map LivePosition.product_symbol).Nodup →
    lp ∈ live → lp.product_symbol = sym →
    (∃ pid, env.mapping sym = some pid ∧ pid ≠ 0) →
    env.price sym ≠ 0 →
    findEntry st sym = some q →
    ((0 < lp.size ∧ env.price sym ≤ q.stop_loss) ∨
      (¬ 0 < lp.size ∧ q.stop_loss ≤ env.price sym)) →
    env.orderSuccess sym = false →
    findEntry (live.foldl (stepPosition env) (st, orders)).1 sym =
      some { q with current_price := env.price sym } := by
  intro live
  induction live with
  | nil => intro st orders _ hmem; exact absurd hmem (List.not_mem_nil lp)
  | cons p ls ih =>
    intro st orders hnd hmem hsym hmap hz hfind hbr hfail
    rw [List.map_cons, List.nodup_cons] at hnd
    obtain ⟨hnotin, hnd2⟩ := hnd
    by_cases hp : p.product_symbol = sym
    · have hlp : lp = p := by
        rcases List.mem_cons.mp hmem with h | h
        · exact h
        · exact absurd (by rw [hp, ← hsym]; exact List.mem_map_of_mem _ h) hnotin
      subst hlp
      have hls : ∀ x ∈ ls, x.product_symbol ≠ sym := by
        intro x hl he
        exact hnotin (by rw [hp, ← he]; exact List.mem_map_of_mem _ hl)
      obtain ⟨pid, hpid, hpid0⟩ := hmap
      have hstep := stepPosition_breach_fail env st orders lp q pid
        (by rw [hsym]; exact hfind) (by rw [hsym]; exact hpid) hpid0
        (by rw [hsym]; exact hz)
        (by rw [hsym]; exact hbr) (by rw [hsym]; exact hfail)
      have hfold : (lp :: ls).foldl (stepPosition env) (st, orders) =
          ls.foldl (stepPosition env)
            (setEntry st lp.product_symbol
              { q with current_price := env.price lp.product_symbol },
             orders ++ [⟨lp.product_symbol, pid, |lp.size|,
               if 0 < lp.size then Side.sell else Side.buy⟩]) := by
        rw [List.foldl_cons, hstep]
      rw [hfold]
      have hframe := (processPositions_frame env ls
        (setEntry st lp.product_symbol
          { q with current_price := env.price lp.product_symbol })
        (orders ++ [⟨lp.product_symbol, pid, |lp.size|,
          if 0 < lp.size then Side.sell else Side.buy⟩]) hls).1
      rw [hframe, ← hsym, findEntry_setEntry_self, hsym]
    · have hmem2 : lp ∈ ls := by
        rcases List.mem_cons.mp hmem with h | h
        · exact absurd (h ▸ hsym) hp
        · exact h
      rcases hstep : stepPosition env (st, orders) p with ⟨st2, orders2⟩
      have hfold : (p :: ls).foldl (stepPosition env) (st, orders) =
          ls.foldl (stepPosition env) (st2, orders2) := by
        rw [List.foldl_cons, hstep]
      rw [hfold]
      have hfind2 : findEntry st2 sym = some q := by
        have hne := stepPosition_findEntry_ne env st orders p hp
        rw [hstep] at hne
        rw [hne]
        exact hfind
      exact ih st2 orders2 hnd2 hmem2 hsym hmap hz hfind2 hbr hfail

/-! ## The Position Store: `_load_positions_data` / `_save_positions_data` -/

/-- The root persisted document `{"positions": {...}}`. -/
structure PositionSnapshot where
  positions : Store
deriving DecidableEq, Repr

/-- What a JSON file on disk may hold for our purposes: a snapshot that
`json.load` parses, or bytes on which `json.load` raises
`JSONDecodeError`. -/
inductive JContent where
  | valid (s : PositionSnapshot)
  | corrupt
deriving DecidableEq, Repr

/-- `TrailingStopManager._load_positions_data` (lines 168–185): an absent
file or a decode error yields the empty snapshot; a parsed file is
returned as is. -/
def loadPositionsData : Option JContent → PositionSnapshot
  | none => ⟨[]⟩
  | some JContent.corrupt => ⟨[]⟩
  | some (JContent.valid s) => s

/-- The file-system state touched by `_save_positions_data`:
the final file `positions_data.json`, the timestamped backups inside
`.backup/` (oldest first; a backup always parses because it is written
with `json.dump(json.load(src), dst)`), and the `positions_data.json.bak`
path consulted — but never written — by the restore branch at
lines 265–268. -/
structure FS where
  finalFile : Option JContent
  backups : List PositionSnapshot
  bakFile : Option JContent
deriving DecidableEq, Repr

/-- Which step of a save attempt raised. `backup` is the
`json.dump(json.load(src), dst)` backup copy at lines 203–208 (it
re-parses the current final file, so it raises whenever that file does
not parse); `tempWrite` is an injected write failure at lines 218–228. -/
inductive Step where
  | backup
  | tempWrite
deriving DecidableEq, Repr

/-- Prune to the 5 most recent backups (lines 249–256). -/
def pruneBackups (bs : List PositionSnapshot) : List PositionSnapshot :=
  if bs.length > 5 then bs.drop (bs.length - 5) else bs

/-- One attempt of the save protocol (the `try` body, lines 193–258):
back up the existing final file (re-parsing it), write the snapshot to a
temp file (the injected failure point), verify, atomically replace the
final file, verify again, clean up and prune.  Returns the file system
after the attempt and which step raised, if any. -/
def saveAttempt (fs : FS) (data : PositionSnapshot) (writeFails : Bool) :
    FS × Option Step :=
  match fs.finalFile with
  | some JContent.corrupt => (fs, some Step.backup)
  | some (JContent.valid s) =>
    let fs1 : FS := { fs with backups := fs.backups ++ [s] }
    if writeFails then (fs1, some Step.tempWrite)
    else ({ fs1 with
            finalFile := some (JContent.valid data)
            backups := pruneBackups fs1.backups }, none)
  | none =>
    if writeFails then (fs, some Step.tempWrite)
    else ({ fs with
            finalFile := some (JContent.valid data)
            backups := pruneBackups fs.backups }, none)

/-- The observable outcome of `_save_positions_data`: the resulting file
system, how many attempts ran, the `time.sleep` delays (in seconds)
between attempts, which step each attempt failed at (`none` = attempt
succeeded), whether the `.bak` restore branch ran, and whether the final
`raise` fired. -/
structure SaveTrace where
  fs : FS
  attempts : ℕ
  delays : List ℕ
  attemptSteps : List (Option Step)
  restored : Bool
  raised : Bool
deriving DecidableEq, Repr

/-- The retry loop of `_save_positions_data` (lines 192–278),
`MAX_RETRIES = 3`.  `remaining` is `MAX_RETRIES - retry_count`; on a
failure with `retry_count == MAX_RETRIES` the code first attempts a
restore from `positions_data.json.bak` if that path exists, then raises.
The injected failure oracle `fails i` says whether attempt `i`'s temp
write raises. -/
def saveLoop (fails : ℕ → Bool) (data : PositionSnapshot) :
    ℕ → ℕ → FS → List ℕ → List (Option Step) → SaveTrace
  | _, 0, fs, delays, steps =>
    { fs := fs, attempts := steps.length, delays := delays,
      attemptSteps := steps, restored := false, raised := true }
  | i, remaining + 1, fs, delays, steps =>
    match saveAttempt fs data (fails i) with
    | (fs2, none) =>
      { fs := fs2, attempts := i + 1, delays := delays,
        attemptSteps := steps ++ [none], restored := false, raised := false }
    | (fs2, some st) =>
      if remaining = 0 then
        match fs2.bakFile with
        | some c =>
          { fs := { fs2 with finalFile := some c, bakFile := none },
            attempts := i + 1, delays := delays,
            attemptSteps := steps ++ [some st], restored := true,
            raised := true }
        | none =>
          { fs := fs2, attempts := i + 1, delays := delays,
            attemptSteps := steps ++ [some st], restored := false,
            raised := true }
      else
        saveLoop fails data (i + 1) remaining fs2 (delays ++ [1])
          (steps ++ [some st])

/-- `TrailingStopManager._save_positions_data` (lines 187–278) under an
injected oracle of temp-write failures. -/
def savePositionsData (fails : ℕ → Bool) (data : PositionSnapshot)
    (fs : FS) : SaveTrace :=
  saveLoop fails data 0 3 fs [] []

theorem saveAttempt_bakFile (fs : FS) (data : PositionSnapshot) (w : Bool) :
    (saveAttempt fs data w).1.bakFile = fs.bakFile := by
  unfold saveAttempt
  cases hf : fs.finalFile with
  | none => cases w <;> simp
  | some c =>
    cases c with
    | valid s => cases w <;> simp
    | corrupt => simp

theorem saveAttempt_fail (fs : FS) (data : PositionSnapshot) (w : Bool)
    (fs2 : FS) (st : Step) (h : saveAttempt fs data w = (fs2, some st)) :
    fs2.finalFile = fs.finalFile ∧ fs2.bakFile = fs.bakFile := by
  unfold saveAttempt at h
  cases hf : fs.finalFile with
  | none =>
    rw [hf] at h
    cases w with
    | false => simp at h
    | true =>
      simp at h
      obtain ⟨h1, -⟩ := h
      rw [← h1]
      exact ⟨hf, rfl⟩
  | some c =>
    rw [hf] at h
    cases c with
    | corrupt =>
      simp at h
      obtain ⟨h1, -⟩ := h
      rw [← h1]
      exact ⟨hf, rfl⟩
    | valid s2 =>
      cases w with
      | false => simp at h
      | true =>
        simp at h
        obtain ⟨h1, -⟩ := h
        rw [← h1]
        exact ⟨rfl, rfl⟩

/-- A final file that does not parse makes the backup step raise before
anything is written: the attempt fails at `backup` and the file system is
untouched. -/
theorem saveAttempt_corrupt (fs : FS) (data : PositionSnapshot) (w : Bool)
    (h : fs.finalFile = some JContent.corrupt) :
    saveAttempt fs data w = (fs, some Step.backup) := by
  unfold saveAttempt
  rw [h]

theorem findEntry_removeClosed_none (live : List LivePosition) (st : Store)
    {sym : String} (h : findEntry st sym = none) :
    findEntry (removeClosed live st) sym = none := by
  by_cases hm : sym ∈ live.map LivePosition.product_symbol
  · rw [findEntry_removeClosed_mem live st hm]
    exact h
  · exact findEntry_removeClosed_not_mem live st hm

/-- The initial stop (`_calculate_stop_loss(entry_price, entry_price,
size)`) in the algebraic form used by the spec. -/
theorem initial_stop_eq (pct ep sz : ℚ) :
    calculate_stop_loss pct ep ep sz =
      if 0 < sz then round5 (ep * (1 - pct / 100))
      else round5 (ep * (1 + pct / 100)) := by
  by_cases h : 0 < sz
  · rw [calculate_stop_loss_long h, if_pos h]
    congr 1
    ring
  · rw [calculate_stop_loss_short h, if_neg h]
    congr 1
    ring

theorem manageCycle_eq (env : Env) (st : Store) (live : List LivePosition)
    (st1 : Store) (orders : List Order)
    (h : live.foldl (stepPosition env) (st, []) = (st1, orders)) :
    manageCycle env st live = (removeClosed live st1, orders) := by
  unfold manageCycle processPositions
  rw [h]

/-! ## Claim theorems -/

/-- C6: `load()` never fails observably — an absent backing file or one
with corrupt contents yields the empty snapshot `{positions: {}}` (with a
logged diagnostic) instead of raising, and a file holding a valid
snapshot is returned as is. -/
theorem claim6_load_never_fails :
    loadPositionsData none = ⟨[]⟩ ∧
    loadPositionsData (some JContent.corrupt) = ⟨[]⟩ ∧
    (∀ s : PositionSnapshot, loadPositionsData (some (JContent.valid s)) = s) :=
  ⟨rfl, rfl, fun _ => rfl⟩

/-- C7: a symbol whose price lookup failed this cycle (the Price Oracle
returned the `0` sentinel) is skipped entirely: its stored entry, if any,
is identical after the cycle, no entry is inserted, and no order is
placed for it. -/
theorem claim7_price_failure_skips_symbol (env : Env) (st : Store)
    (live : List LivePosition) {sym : String}
    (hz : env.price sym = 0)
    (hlive : sym ∈ live.map LivePosition.product_symbol) :
    findEntry (manageCycle env st live).1 sym = findEntry st sym ∧
    ∀ o ∈ (manageCycle env st live).2, o.symbol ≠ sym := by
  rcases hfold : live.foldl (stepPosition env) (st, []) with ⟨st1, orders⟩
  rw [manageCycle_eq env st live st1 orders hfold]
  have hpz := processPositions_price_zero env hz live st []
  rw [hfold] at hpz
  constructor
  · show findEntry (removeClosed live st1) sym = findEntry st sym
    rw [findEntry_removeClosed_mem live st1 hlive]
    exact hpz.1
  · intro o ho
    rcases hpz.2 o ho with h | h
    · exact absurd h (List.not_mem_nil o)
    · exact h

/-- C7 witness: a tracked long whose price lookup fails is untouched and
generates no order. -/
theorem claim7_witness :
    findEntry (manageCycle ⟨2, fun _ => some 1, fun _ => 0, fun _ => true, 0⟩
        [("X", ⟨100, 100, 98, 1, 0, 0⟩)] [⟨"X", 100, 1⟩]).1 "X" =
      findEntry [("X", ⟨100, 100, 98, 1, 0, 0⟩)] "X" ∧
    ∀ o ∈ (manageCycle ⟨2, fun _ => some 1, fun _ => 0, fun _ => true, 0⟩
        [("X", ⟨100, 100, 98, 1, 0, 0⟩)] [⟨"X", 100, 1⟩]).2, o.symbol ≠ "X" :=
  claim7_price_failure_skips_symbol _ _ _ rfl (by simp)

/-- C8: a symbol present in the store but absent from the live positions
is deleted from the store, and no order is placed for it. -/
theorem claim8_stale_entry_removed (env : Env) (st : Store)
    (live : List LivePosition) {sym : String} (q : TrackedPosition)
    (_h0 : findEntry st sym = some q)
    (habs : sym ∉ live.map LivePosition.product_symbol) :
    findEntry (manageCycle env st live).1 sym = none ∧
    ∀ o ∈ (manageCycle env st live).2, o.symbol ≠ sym := by
  rcases hfold : live.foldl (stepPosition env) (st, []) with ⟨st1, orders⟩
  rw [manageCycle_eq env st live st1 orders hfold]
  have hls : ∀ lp ∈ live, lp.product_symbol ≠ sym := by
    intro lp hl he
    exact habs (he ▸ List.mem_map_of_mem _ hl)
  have hframe := processPositions_frame env live st [] hls
  rw [hfold] at hframe
  refine ⟨findEntry_removeClosed_not_mem live st1 habs, ?_⟩
  intro o ho
  rcases hframe.2 o ho with h | h
  · exact absurd h (List.not_mem_nil o)
  · exact h

/-- C8 witness: a stored symbol with no live position disappears with no
order. -/
theorem claim8_witness :
    findEntry (manageCycle ⟨2, fun _ => some 1, fun _ => 105, fun _ => true, 0⟩
        [("X", ⟨100, 100, 98, 1, 0, 0⟩)] []).1 "X" = none ∧
    ∀ o ∈ (manageCycle ⟨2, fun _ => some 1, fun _ => 105, fun _ => true, 0⟩
        [("X", ⟨100, 100, 98, 1, 0, 0⟩)] []).2, o.symbol ≠ "X" :=
  claim8_stale_entry_removed _ _ _ ⟨100, 100, 98, 1, 0, 0⟩ rfl (by simp)

/-- C5: a live position whose symbol is absent from the store and whose
price lookup succeeded (the symbol's product id having resolved, which
the loop checks before the price lookup) is inserted with
`stop_loss_updates == 0` and `stop_loss` equal to the initial stop:
`entry_price * (1 - pct/100)` for `size > 0`, `entry_price * (1 +
pct/100)` for `size < 0`, rounded to 5 fractional digits. -/
theorem claim5_new_position_initial_stop (env : Env) (st : Store)
    (live : List LivePosition) (lp : LivePosition) {sym : String}
    (hnd : (live.map LivePosition.product_symbol).Nodup)
    (hmem : lp ∈ live) (hsym : lp.product_symbol = sym)
    (hmap : ∃ pid, env.mapping sym = some pid ∧ pid ≠ 0)
    (hz : env.price sym ≠ 0)
    (habs : findEntry st sym = none) (_hsz : lp.size ≠ 0) :
    findEntry (manageCycle env st live).1 sym =
      some { entry_price := lp.entry_price
             current_price := env.price sym
             stop_loss :=
               if 0 < lp.size then round5 (lp.entry_price * (1 - env.pct / 100))
               else round5 (lp.entry_price * (1 + env.pct / 100))
             size := lp.size
             stop_loss_updates := 0
             last_update := env.now } := by
  rcases hfold : live.foldl (stepPosition env) (st, []) with ⟨st1, orders⟩
  rw [manageCycle_eq env st live st1 orders hfold]
  have hins := processPositions_insert env lp live st [] hnd hmem hsym hmap hz habs
  rw [hfold] at hins
  have hmm : sym ∈ live.map LivePosition.product_symbol :=
    hsym ▸ List.mem_map_of_mem _ hmem
  show findEntry (removeClosed live st1) sym = _
  rw [findEntry_removeClosed_mem live st1 hmm, hins.1]
  unfold freshEntry
  rw [initial_stop_eq, hsym]

/-- C5 witness: a fresh long at entry 100 with pct 2 is inserted with
zero updates and the initial stop. -/
theorem claim5_witness :
    findEntry (manageCycle ⟨2, fun _ => some 1, fun _ => 105, fun _ => true, 7⟩
        [] [⟨"X", 100, 1⟩]).1 "X" =
      some { entry_price := (100:ℚ)
             current_price := (105:ℚ)
             stop_loss :=
               if (0:ℚ) < 1 then round5 (100 * (1 - 2 / 100))
               else round5 (100 * (1 + 2 / 100))
             size := (1:ℚ)
             stop_loss_updates := 0
             last_update := 7 } :=
  claim5_new_position_initial_stop _ _ _ ⟨"X", 100, 1⟩ (by simp) (by simp) rfl
    ⟨1, rfl, by norm_num⟩ (by norm_num) rfl (by norm_num)

/-- C10: in the cycle that first inserts a symbol, no breach evaluation
happens and no close order is placed for it, even when the current price
already breaches the freshly computed initial stop; the fresh entry is
simply stored, so a close can occur at the earliest in the next cycle. -/
theorem claim10_first_cycle_no_close (env : Env) (st : Store)
    (live : List LivePosition) (lp : LivePosition) {sym : String}
    (hnd : (live.map LivePosition.product_symbol).Nodup)
    (hmem : lp ∈ live) (hsym : lp.product_symbol = sym)
    (hmap : ∃ pid, env.mapping sym = some pid ∧ pid ≠ 0)
    (hz : env.price sym ≠ 0)
    (habs : findEntry st sym = none)
    (_hbreach :
      (0 < lp.size ∧ env.price sym ≤
        calculate_stop_loss env.pct lp.entry_price lp.entry_price lp.size) ∨
      (lp.size < 0 ∧
        calculate_stop_loss env.pct lp.entry_price lp.entry_price lp.size ≤
        env.price sym)) :
    findEntry (manageCycle env st live).1 sym = some (freshEntry env lp) ∧
    ∀ o ∈ (manageCycle env st live).2, o.symbol ≠ sym := by
  rcases hfold : live.foldl (stepPosition env) (st, []) with ⟨st1, orders⟩
  rw [manageCycle_eq env st live st1 orders hfold]
  have hins := processPositions_insert env lp live st [] hnd hmem hsym hmap hz habs
  rw [hfold] at hins
  have hmm : sym ∈ live.map LivePosition.product_symbol :=
    hsym ▸ List.mem_map_of_mem _ hmem
  constructor
  · show findEntry (removeClosed live st1) sym = _
    rw [findEntry_removeClosed_mem live st1 hmm]
    exact hins.1
  · intro o ho
    rcases hins.2 o ho with h | h
    · exact absurd h (List.not_mem_nil o)
    · exact h

/-- C10 witness: a fresh long at entry 100 whose current price 90
already sits below the initial stop 98 is inserted, not closed, and no
order is placed. -/
theorem claim10_witness :
    findEntry (manageCycle ⟨2, fun _ => some 1, fun _ => 90, fun _ => true, 7⟩
        [] [⟨"X", 100, 1⟩]).1 "X" =
      some (freshEntry ⟨2, fun _ => some 1, fun _ => 90, fun _ => true, 7⟩
        ⟨"X", 100, 1⟩) ∧
    ∀ o ∈ (manageCycle ⟨2, fun _ => some 1, fun _ => 90, fun _ => true, 7⟩
        [] [⟨"X", 100, 1⟩]).2, o.symbol ≠ "X" :=
  claim10_first_cycle_no_close _ _ _ ⟨"X", 100, 1⟩ (by simp) (by simp) rfl
    ⟨1, rfl, by norm_num⟩ (by norm_num) rfl
    (Or.inl ⟨by norm_num,
      by norm_num [calculate_stop_loss, round5, rhalfEven]⟩)

/-- C4: the per-entry ratchet — an entry stored before the cycle whose
symbol is still stored after the cycle has a stop that moved only in the
risk-reducing direction: upward (or unchanged) for `size > 0`, downward
(or unchanged) for `size < 0`.  Hypotheses reflect the data-model
invariants of the store the engine itself writes: stored stops are
5-digit `round(_, 5)` outputs, live positions carry one entry per symbol,
and the live direction of a tracked symbol agrees with the stored one
(direction flips are represented as close + new entry). -/
theorem claim4_stop_monotonic (env : Env) (st : Store)
    (live : List LivePosition) {sym : String} (q q' : TrackedPosition)
    (hnd : (live.map LivePosition.product_symbol).Nodup)
    (hsign : ∀ lp ∈ live, lp.product_symbol = sym → (0 < lp.size ↔ 0 < q.size))
    (hr : isRound5 q.stop_loss)
    (h0 : findEntry st sym = some q)
    (h1 : findEntry (manageCycle env st live).1 sym = some q') :
    (0 < q.size → q.stop_loss ≤ q'.stop_loss) ∧
    (q.size < 0 → q'.stop_loss ≤ q.stop_loss) ∧
    isRound5 q'.stop_loss := by
  rcases hfold : live.foldl (stepPosition env) (st, []) with ⟨st1, orders⟩
  rw [manageCycle_eq env st live st1 orders hfold] at h1
  replace h1 : findEntry (removeClosed live st1) sym = some q' := h1
  have hrt := processPositions_ratchet env live st [] q hnd hsign h0 hr
  rw [hfold] at hrt
  rcases hrt with hn | ⟨q2, hq2, _, hr2, hm1, hm2⟩
  · rw [findEntry_removeClosed_none live st1 hn] at h1
    exact absurd h1 (by simp)
  · by_cases hm : sym ∈ live.map LivePosition.product_symbol
    · rw [findEntry_removeClosed_mem live st1 hm, hq2] at h1
      injection h1 with h1
      subst h1
      exact ⟨hm1, hm2, hr2⟩
    · rw [findEntry_removeClosed_not_mem live st1 hm] at h1
      exact absurd h1 (by simp)

/-- C4 witness: a tracked long at stop 98 sees price 110, the stop
ratchets up to 108; the cycle never lowered it. -/
theorem claim4_witness :
    ((0:ℚ) < 1 → (98:ℚ) ≤ 108) ∧ ((1:ℚ) < 0 → (108:ℚ) ≤ 98) ∧
    isRound5 108 := by
  have h := @claim4_stop_monotonic
    ⟨2, fun _ => some 1, fun _ => 110, fun _ => true, 9⟩
    [("X", ⟨100, 100, 98, 1, 0, 0⟩)] [⟨"X", 100, 1⟩] "X"
    ⟨100, 100, 98, 1, 0, 0⟩ ⟨100, 110, 108, 1, 1, 9⟩
    (by simp)
    (by
      intro lp hl _
      rw [List.mem_singleton] at hl
      subst hl
      exact Iff.rfl)
    ⟨9800000, by norm_num⟩ rfl
    (by norm_num [manageCycle, processPositions, stepPosition, findEntry,
      setEntry, removeClosed, should_update_stop_loss, calculate_stop_loss,
      round5, rhalfEven, List.foldl, List.filter])
  exact h

/-- C3 (counterexample): a breached long whose close order fails is NOT
left entirely unchanged — `manage_stop_losses` refreshes
`current_price` (line 399) before placing the order, so after the failed
close the stored entry differs from its cycle-start value. -/
theorem claim3_counterexample :
    (⟨2, fun _ => some 1, fun _ => 97, fun _ => false, 1⟩ : Env).orderSuccess
      "X" = false ∧
    (manageCycle ⟨2, fun _ => some 1, fun _ => 97, fun _ => false, 1⟩
        [("X", ⟨100, 100, 98, 1, 0, 0⟩)] [⟨"X", 100, 1⟩]).2 =
      [⟨"X", 1, 1, Side.sell⟩] ∧
    findEntry (manageCycle ⟨2, fun _ => some 1, fun _ => 97, fun _ => false, 1⟩
        [("X", ⟨100, 100, 98, 1, 0, 0⟩)] [⟨"X", 100, 1⟩]).1 "X" =
      some ⟨100, 97, 98, 1, 0, 0⟩ ∧
    findEntry (manageCycle ⟨2, fun _ => some 1, fun _ => 97, fun _ => false, 1⟩
        [("X", ⟨100, 100, 98, 1, 0, 0⟩)] [⟨"X", 100, 1⟩]).1 "X" ≠
      some ⟨100, 100, 98, 1, 0, 0⟩ := by
  refine ⟨rfl, ?_, ?_, ?_⟩
  · norm_num [manageCycle, processPositions, stepPosition, findEntry,
      setEntry, removeClosed, List.foldl, List.filter]
  · norm_num [manageCycle, processPositions, stepPosition, findEntry,
      setEntry, removeClosed, List.foldl, List.filter]
  · norm_num [manageCycle, processPositions, stepPosition, findEntry,
      setEntry, removeClosed, List.foldl, List.filter]

/-- C3 (amended): when a tracked symbol's stop is breached and the close
order returns non-success, the entry is retained — `stop_loss`,
`entry_price`, `size`, `stop_loss_updates` and `last_update` keep their
cycle-start values — but `current_price` is refreshed to this cycle's
price (the refresh happens before the order), and the breach is
re-evaluated next cycle. -/
theorem claim3_close_failure_keeps_entry (env : Env) (st : Store)
    (live : List LivePosition) (lp : LivePosition) {sym : String}
    (q : TrackedPosition)
    (hnd : (live.map LivePosition.product_symbol).Nodup)
    (hmem : lp ∈ live) (hsym : lp.product_symbol = sym)
    (hmap : ∃ pid, env.mapping sym = some pid ∧ pid ≠ 0)
    (hz : env.price sym ≠ 0)
    (h0 : findEntry st sym = some q)
    (hbr : (0 < lp.size ∧ env.price sym ≤ q.stop_loss) ∨
           (¬ 0 < lp.size ∧ q.stop_loss ≤ env.price sym))
    (hfail : env.orderSuccess sym = false) :
    findEntry (manageCycle env st live).1 sym =
      some { q with current_price := env.price sym } := by
  rcases hfold : live.foldl (stepPosition env) (st, []) with ⟨st1, orders⟩
  rw [manageCycle_eq env st live st1 orders hfold]
  have hbf := processPositions_breach_fail env lp q live st [] hnd hmem hsym
    hmap hz h0 hbr hfail
  rw [hfold] at hbf
  have hmm : sym ∈ live.map LivePosition.product_symbol :=
    hsym ▸ List.mem_map_of_mem _ hmem
  show findEntry (removeClosed live st1) sym = _
  rw [findEntry_removeClosed_mem live st1 hmm]
  exact hbf

/-- C3 witness: the breached long with a failing close order keeps every
field except the refreshed `current_price`. -/
theorem claim3_witness :
    findEntry (manageCycle ⟨2, fun _ => some 1, fun _ => 97, fun _ => false, 1⟩
        [("X", ⟨100, 100, 98, 1, 0, 0⟩)] [⟨"X", 100, 1⟩]).1 "X" =
      some { (⟨100, 100, 98, 1, 0, 0⟩ : TrackedPosition) with
             current_price := (97:ℚ) } :=
  claim3_close_failure_keeps_entry _ _ _ ⟨"X", 100, 1⟩ ⟨100, 100, 98, 1, 0, 0⟩
    (by simp) (by simp) rfl ⟨1, rfl, by norm_num⟩ (by norm_num) rfl
    (Or.inl ⟨by norm_num, by norm_num⟩) rfl

/-- C2 (counterexample): `should_update` is NOT equivalent to "the
candidate computed by `trail` (= `_calculate_stop_loss`, which rounds to
5 digits) is strictly more protective": at
`current_price = 100 + 10⁻⁶`, `entry = 100`, `pct = 2`, `size = 1`,
`current_stop = 98`, the unrounded candidate `98 + 10⁻⁶` exceeds the
stop, so `should_update` is true, yet the rounded `trail` candidate
equals the current stop `98` — in particular `should_update` is true
while `trail(...) = current_stop`. -/
theorem claim2_counterexample :
    should_update_stop_loss 2 (100 + 1/1000000) 98 100 1 = true ∧
    calculate_stop_loss 2 (100 + 1/1000000) 100 1 = 98 ∧
    ¬ (should_update_stop_loss 2 (100 + 1/1000000) 98 100 1 = true ↔
        98 < calculate_stop_loss 2 (100 + 1/1000000) 100 1) := by
  have h1 : should_update_stop_loss 2 (100 + 1/1000000) 98 100 1 = true := by
    norm_num [should_update_stop_loss]
  have h2 : calculate_stop_loss 2 (100 + 1/1000000) 100 1 = 98 := by
    norm_num [calculate_stop_loss, round5, rhalfEven]
  refine ⟨h1, h2, fun hiff => ?_⟩
  have := hiff.mp h1
  rw [h2] at this
  exact lt_irrefl _ this

/-- C2 (amended): `should_update(current_price, current_stop,
entry_price, size, pct)` is true iff the UNROUNDED trail candidate
`current_price ∓ entry_price * pct/100` is strictly more protective than
`current_stop` (strictly higher for `size > 0`, strictly lower
otherwise); in particular `should_update` is false whenever that
unrounded candidate equals `current_stop`.  (`_should_update_stop_loss`
compares the candidate before the rounding that `_calculate_stop_loss`
applies.) -/
theorem claim2_should_update_iff_unrounded
    (pct cp cs ep sz : ℚ) (_hsz : sz ≠ 0) :
    (should_update_stop_loss pct cp cs ep sz = true ↔
      (if 0 < sz then cs < cp - ep * (pct / 100)
       else cp + ep * (pct / 100) < cs)) ∧
    ((if 0 < sz then cp - ep * (pct / 100) else cp + ep * (pct / 100)) = cs →
      should_update_stop_loss pct cp cs ep sz = false) := by
  constructor
  · by_cases h : 0 < sz <;> simp [should_update_stop_loss, h]
  · intro he
    by_cases h : 0 < sz
    · rw [if_pos h] at he
      simp [should_update_stop_loss, h, he]
    · rw [if_neg h] at he
      simp [should_update_stop_loss, h, he]

/-- C2 witness: for a long with entry 100, pct 2, stop 98 and price 110,
`should_update` agrees with the unrounded candidate comparison. -/
theorem claim2_witness :
    (should_update_stop_loss 2 110 98 100 1 = true ↔
      (if (0:ℚ) < 1 then (98:ℚ) < 110 - 100 * (2 / 100)
       else (110:ℚ) + 100 * (2 / 100) < 98)) ∧
    ((if (0:ℚ) < 1 then (110:ℚ) - 100 * (2 / 100)
      else (110:ℚ) + 100 * (2 / 100)) = 98 →
      should_update_stop_loss 2 110 98 100 1 = false) :=
  claim2_should_update_iff_unrounded 2 110 98 100 1 (by norm_num)

theorem saveLoop_succ_none {fails : ℕ → Bool} {data : PositionSnapshot}
    {i r : ℕ} {fs fs2 : FS} {delays : List ℕ} {steps : List (Option Step)}
    (h : saveAttempt fs data (fails i) = (fs2, none)) :
    saveLoop fails data i (r + 1) fs delays steps =
      { fs := fs2, attempts := i + 1, delays := delays,
        attemptSteps := steps ++ [none], restored := false,
        raised := false } := by
  unfold saveLoop
  rw [h]

theorem saveLoop_succ_fail_cont {fails : ℕ → Bool} {data : PositionSnapshot}
    {i r : ℕ} {fs fs2 : FS} {delays : List ℕ} {steps : List (Option Step)}
    {st : Step} (h : saveAttempt fs data (fails i) = (fs2, some st))
    (hr : r ≠ 0) :
    saveLoop fails data i (r + 1) fs delays steps =
      saveLoop fails data (i + 1) r fs2 (delays ++ [1])
        (steps ++ [some st]) := by
  conv_lhs => unfold saveLoop
  rw [h]
  simp [hr]

theorem saveLoop_last_fail_bak {fails : ℕ → Bool} {data : PositionSnapshot}
    {i : ℕ} {fs fs2 : FS} {delays : List ℕ} {steps : List (Option Step)}
    {st : Step} {c : JContent}
    (h : saveAttempt fs data (fails i) = (fs2, some st))
    (hb : fs2.bakFile = some c) :
    saveLoop fails data i 1 fs delays steps =
      { fs := { fs2 with finalFile := some c, bakFile := none },
        attempts := i + 1, delays := delays,
        attemptSteps := steps ++ [some st], restored := true,
        raised := true } := by
  show saveLoop fails data i (0 + 1) fs delays steps = _
  unfold saveLoop
  rw [h]
  simp [hb]

theorem saveLoop_last_fail_nobak {fails : ℕ → Bool} {data : PositionSnapshot}
    {i : ℕ} {fs fs2 : FS} {delays : List ℕ} {steps : List (Option Step)}
    {st : Step} (h : saveAttempt fs data (fails i) = (fs2, some st))
    (hb : fs2.bakFile = none) :
    saveLoop fails data i 1 fs delays steps =
      { fs := fs2, attempts := i + 1, delays := delays,
        attemptSteps := steps ++ [some st], restored := false,
        raised := true } := by
  show saveLoop fails data i (0 + 1) fs delays steps = _
  unfold saveLoop
  rw [h]
  simp [hb]

/-- C1 (counterexample): all 3 save attempts fail while the save's own
backup mechanism has produced backups (`.backup/` is non-empty — a most
recent backup is present), yet no restoration is attempted: the restore
branch checks the distinct path `positions_data.json.bak`, which the save
routine never creates. -/
theorem claim1_counterexample :
    (savePositionsData (fun _ => true) ⟨[]⟩
        ⟨some (JContent.valid ⟨[]⟩), [], none⟩).raised = true ∧
    (savePositionsData (fun _ => true) ⟨[]⟩
        ⟨some (JContent.valid ⟨[]⟩), [], none⟩).attempts = 3 ∧
    (savePositionsData (fun _ => true) ⟨[]⟩
        ⟨some (JContent.valid ⟨[]⟩), [], none⟩).fs.backups ≠ [] ∧
    (savePositionsData (fun _ => true) ⟨[]⟩
        ⟨some (JContent.valid ⟨[]⟩), [], none⟩).restored = false := by
  refine ⟨rfl, rfl, ?_, rfl⟩
  intro hc
  simp [savePositionsData, saveLoop, saveAttempt] at hc

/-- C1 (amended): `save(snapshot)` makes at most 3 attempts with a fixed
1-second delay between consecutive attempts; if all 3 attempts fail it
attempts restoration from the fixed path `positions_data.json.bak` when
that file exists — a path the save routine itself never creates; the
timestamped backups under `.backup/` are never used for restoration —
and then propagates a fatal error to the caller. -/
theorem claim1_save_retry_policy (fails : ℕ → Bool) (data : PositionSnapshot)
    (fs0 : FS) :
    (savePositionsData fails data fs0).attempts ≤ 3 ∧
    (savePositionsData fails data fs0).delays =
      List.replicate ((savePositionsData fails data fs0).attempts - 1) 1 ∧
    ((savePositionsData fails data fs0).raised = true →
      (savePositionsData fails data fs0).attempts = 3 ∧
      (savePositionsData fails data fs0).restored = fs0.bakFile.isSome ∧
      (∀ c, fs0.bakFile = some c →
        (savePositionsData fails data fs0).fs.finalFile = some c ∧
        (savePositionsData fails data fs0).fs.bakFile = none) ∧
      (fs0.bakFile = none →
        (savePositionsData fails data fs0).fs.finalFile = fs0.finalFile)) := by
  have e0 : savePositionsData fails data fs0 =
      saveLoop fails data 0 (2 + 1) fs0 [] [] := rfl
  rcases h0 : saveAttempt fs0 data (fails 0) with ⟨fs1, s1⟩
  cases s1 with
  | none =>
    have e : savePositionsData fails data fs0 =
        { fs := fs1, attempts := 1, delays := [], attemptSteps := [none],
          restored := false, raised := false } := by
      rw [e0, saveLoop_succ_none h0]
      rfl
    rw [e]
    exact ⟨by norm_num, rfl, fun hr => absurd hr (by simp)⟩
  | some st1 =>
    obtain ⟨hf1, hb1⟩ := saveAttempt_fail fs0 data (fails 0) fs1 st1 h0
    rcases h1 : saveAttempt fs1 data (fails 1) with ⟨fs2, s2⟩
    cases s2 with
    | none =>
      have e : savePositionsData fails data fs0 =
          { fs := fs2, attempts := 2, delays := [1],
            attemptSteps := [some st1, none], restored := false,
            raised := false } := by
        rw [e0, saveLoop_succ_fail_cont h0 (by norm_num)]
        show saveLoop fails data 1 (1 + 1) fs1 [1] [some st1] = _
        rw [saveLoop_succ_none h1]
        rfl
      rw [e]
      exact ⟨by norm_num, rfl, fun hr => absurd hr (by simp)⟩
    | some st2 =>
      obtain ⟨hf2, hb2⟩ := saveAttempt_fail fs1 data (fails 1) fs2 st2 h1
      rcases h2 : saveAttempt fs2 data (fails 2) with ⟨fs3, s3⟩
      cases s3 with
      | none =>
        have e : savePositionsData fails data fs0 =
            { fs := fs3, attempts := 3, delays := [1, 1],
              attemptSteps := [some st1, some st2, none], restored := false,
              raised := false } := by
          rw [e0, saveLoop_succ_fail_cont h0 (by norm_num)]
          show saveLoop fails data 1 (1 + 1) fs1 [1] [some st1] = _
          rw [saveLoop_succ_fail_cont h1 (by norm_num)]
          show saveLoop fails data 2 (0 + 1) fs2 [1, 1]
            [some st1, some st2] = _
          rw [saveLoop_succ_none h2]
          rfl
        rw [e]
        exact ⟨by norm_num, rfl, fun hr => absurd hr (by simp)⟩
      | some st3 =>
        obtain ⟨hf3, hb3⟩ := saveAttempt_fail fs2 data (fails 2) fs3 st3 h2
        have hbak : fs3.bakFile = fs0.bakFile := by rw [hb3, hb2, hb1]
        cases hbc : fs0.bakFile with
        | some c =>
          have hb3c : fs3.bakFile = some c := by rw [hbak, hbc]
          have e : savePositionsData fails data fs0 =
              { fs := { fs3 with finalFile := some c, bakFile := none },
                attempts := 3, delays := [1, 1],
                attemptSteps := [some st1, some st2, some st3],
                restored := true, raised := true } := by
            rw [e0, saveLoop_succ_fail_cont h0 (by norm_num)]
            show saveLoop fails data 1 (1 + 1) fs1 [1] [some st1] = _
            rw [saveLoop_succ_fail_cont h1 (by norm_num)]
            show saveLoop fails data 2 1 fs2 [1, 1] [some st1, some st2] = _
            rw [saveLoop_last_fail_bak h2 hb3c]
            rfl
          rw [e]
          refine ⟨by norm_num, rfl, fun _ => ⟨rfl, by simp, ?_, ?_⟩⟩
          · intro c2 hc2
            injection hc2 with hcc
            subst hcc
            exact ⟨rfl, rfl⟩
          · intro hn
            exact absurd hn (by simp)
        | none =>
          have hb3n : fs3.bakFile = none := by rw [hbak, hbc]
          have e : savePositionsData fails data fs0 =
              { fs := fs3, attempts := 3, delays := [1, 1],
                attemptSteps := [some st1, some st2, some st3],
                restored := false, raised := true } := by
            rw [e0, saveLoop_succ_fail_cont h0 (by norm_num)]
            show saveLoop fails data 1 (1 + 1) fs1 [1] [some st1] = _
            rw [saveLoop_succ_fail_cont h1 (by norm_num)]
            show saveLoop fails data 2 1 fs2 [1, 1] [some st1, some st2] = _
            rw [saveLoop_last_fail_nobak h2 hb3n]
            rfl
          rw [e]
          refine ⟨by norm_num, rfl, fun _ => ⟨rfl, by simp, ?_, ?_⟩⟩
          · intro c2 hc2
            exact absurd hc2 (by simp)
          · intro _
            show fs3.finalFile = fs0.finalFile
            rw [hf3, hf2, hf1]

/-- C1 witness: with every temp write failing and a `.bak` file present,
the save runs its 3 attempts and the restore branch moves the `.bak`
contents onto the final path before the fatal error. -/
theorem claim1_witness :
    (savePositionsData (fun _ => true) ⟨[]⟩
        ⟨some (JContent.valid ⟨[]⟩), [], some JContent.corrupt⟩).attempts =
      3 ∧
    (savePositionsData (fun _ => true) ⟨[]⟩
        ⟨some (JContent.valid ⟨[]⟩), [],
          some JContent.corrupt⟩).fs.finalFile = some JContent.corrupt := by
  obtain ⟨-, -, h3⟩ := claim1_save_retry_policy (fun _ => true) ⟨[]⟩
    ⟨some (JContent.valid ⟨[]⟩), [], some JContent.corrupt⟩
  obtain ⟨ha, -, hc, -⟩ := h3 rfl
  exact ⟨ha, (hc JContent.corrupt rfl).1⟩

/-- C9: if the final snapshot file exists but does not parse as JSON,
every save attempt fails at the backup step (`json.dump(json.load(src),
dst)` re-parses the file instead of copying bytes), so the save raises
after all 3 attempts with the file system — in particular the corrupt
final file — completely untouched, even though `load()` maps that very
file to the empty snapshot. -/
theorem claim9_corrupt_final_file_blocks_save (fails : ℕ → Bool)
    (data : PositionSnapshot) (fs0 : FS)
    (h : fs0.finalFile = some JContent.corrupt)
    (hb : fs0.bakFile = none) :
    (savePositionsData fails data fs0).attemptSteps =
      [some Step.backup, some Step.backup, some Step.backup] ∧
    (savePositionsData fails data fs0).raised = true ∧
    (savePositionsData fails data fs0).attempts = 3 ∧
    (savePositionsData fails data fs0).fs = fs0 ∧
    loadPositionsData fs0.finalFile = ⟨[]⟩ := by
  have e : savePositionsData fails data fs0 =
      { fs := fs0, attempts := 3, delays := [1, 1],
        attemptSteps :=
          [some Step.backup, some Step.backup, some Step.backup],
        restored := false, raised := true } := by
    have e0 : savePositionsData fails data fs0 =
        saveLoop fails data 0 (2 + 1) fs0 [] [] := rfl
    rw [e0, saveLoop_succ_fail_cont
      (saveAttempt_corrupt fs0 data (fails 0) h) (by norm_num)]
    show saveLoop fails data 1 (1 + 1) fs0 [1] [some Step.backup] = _
    rw [saveLoop_succ_fail_cont
      (saveAttempt_corrupt fs0 data (fails 1) h) (by norm_num)]
    show saveLoop fails data 2 1 fs0 [1, 1]
      [some Step.backup, some Step.backup] = _
    rw [saveLoop_last_fail_nobak
      (saveAttempt_corrupt fs0 data (fails 2) h) hb]
    rfl
  rw [e]
  refine ⟨rfl, rfl, rfl, rfl, ?_⟩
  rw [h]
  rfl

/-- C9 witness: a corrupt final file with no `.bak` blocks all three
attempts at the backup step and survives the save untouched. -/
theorem claim9_witness :
    (savePositionsData (fun _ => false) ⟨[]⟩
        ⟨some JContent.corrupt, [], none⟩).attemptSteps =
      [some Step.backup, some Step.backup, some Step.backup] ∧
    (savePositionsData (fun _ => false) ⟨[]⟩
        ⟨some JContent.corrupt, [], none⟩).raised = true ∧
    (savePositionsData (fun _ => false) ⟨[]⟩
        ⟨some JContent.corrupt, [], none⟩).attempts = 3 ∧
    (savePositionsData (fun _ => false) ⟨[]⟩
        ⟨some JContent.corrupt, [], none⟩).fs =
      ⟨some JContent.corrupt, [], none⟩ ∧
    loadPositionsData (⟨some JContent.corrupt, [], none⟩ : FS).finalFile =
      ⟨[]⟩ :=
  claim9_corrupt_final_file_blocks_save _ _ _ rfl rfl

end AutoTrader
